import Mathlib

/-!
Verification development for the hyperliquid_lifi_bridge deposit optimizer.

This file shallowly embeds the deposit-optimization engine of
`src/component/depositOptimizer.ts` and the execution / dominance logic of the
bridge widget (`src/unnamed/part_002`) into Lean 4, and proves properties of
the embedding.

Modelling conventions:
- JavaScript `number` arithmetic is modelled by exact rational arithmetic (ℚ).
  All concrete constants of the source are tiny decimal fractions, so the
  float/rational distinction does not affect any of the concrete evaluations
  in this file.
- Raw on-chain amounts, which the source keeps as decimal integer strings, are
  modelled as integers (ℤ); `parseInt` of such a string is the identity, and
  the source's `usedInputAmount === '0'` test becomes an equality test with 0.
- The opaque LiFi route object (`LiFiStep`) is modelled as `Unit`: the
  optimizer never inspects it, it is only carried along.
- Network collaborators (balance scanning, quote acquisition, transaction
  execution) are external per the spec; their results (balances, bridge
  options, per-leg outcomes, the settled destination balance) are inputs to
  the embedded functions.
-/

namespace HyprBridge

/-- Native token placeholder addresses (`NATIVE_TOKEN_ADDRESSES`). -/
def NATIVE_TOKEN_ADDRESSES : List String :=
  ["0x0000000000000000000000000000000000000000",
   "0xeeeeeeeeeeeeeeeeeeeeeeeeeeeeeeeeeeeeeeee"]

/-- Native gas-token symbols (`NATIVE_TOKEN_SYMBOLS`). -/
def NATIVE_TOKEN_SYMBOLS : List String :=
  ["ETH", "MATIC", "POL", "BNB", "FTM", "AVAX", "MON", "HYPE", "CELO",
   "GLMR", "MOVR", "ONE", "KLAY", "CRO", "METIS", "BOBA"]

/-- Default gas reserve for unknown chains (`DEFAULT_GAS_RESERVE`). -/
def DEFAULT_GAS_RESERVE : ℚ := 0.6

/-- Gas reserve per chain (`GAS_RESERVE_BY_CHAIN` record lookup with the
`?? DEFAULT_GAS_RESERVE` fallback of `getGasReserve`). -/
def getGasReserve (chainId : ℕ) : ℚ :=
  if chainId = 1 then 0.005
  else if chainId = 10 then 0.001
  else if chainId = 56 then 0.0005
  else if chainId = 137 then 3
  else if chainId = 250 then 1.5
  else if chainId = 8453 then 0.003
  else if chainId = 42161 then 0.001
  else if chainId = 43114 then 0.05
  else if chainId = 59144 then 0.001
  else if chainId = 324 then 0.001
  else if chainId = 534352 then 0.001
  else if chainId = 999 then 0.03
  else if chainId = 143 then 0.4
  else DEFAULT_GAS_RESERVE

/-- JavaScript `String.prototype.toLowerCase` (character-wise ASCII case
mapping, which agrees with JS on every symbol and address in this model). -/
def strToLower (s : String) : String := ⟨s.data.map Char.toLower⟩

/-- JavaScript `String.prototype.toUpperCase` (character-wise ASCII case
mapping). -/
def strToUpper (s : String) : String := ⟨s.data.map Char.toUpper⟩

/-- JavaScript `String.prototype.includes`: substring test. -/
def strIncludes (s pat : String) : Bool :=
  (s.data.tails).any (fun t => pat.data.isPrefixOf t)

/-- JavaScript `String.prototype.startsWith`. -/
def strStartsWith (s pat : String) : Bool := pat.data.isPrefixOf s.data

/-- JavaScript `String.prototype.endsWith`. -/
def strEndsWith (s pat : String) : Bool := pat.data.isSuffixOf s.data

/-- Check if a token is a native gas token by address or symbol
(`isNativeToken`); the `if (tokenSymbol)` truthiness test of the source is the
non-empty-string test. -/
def isNativeToken (tokenAddress : String) (tokenSymbol : String) : Bool :=
  NATIVE_TOKEN_ADDRESSES.contains (strToLower tokenAddress) ||
    (!tokenSymbol.isEmpty && NATIVE_TOKEN_SYMBOLS.contains (strToUpper tokenSymbol))

/-- Stablecoin symbols rounded to whole units (`STABLECOIN_SYMBOLS`). -/
def STABLECOIN_SYMBOLS : List String :=
  ["USDC", "USDT", "DAI", "BUSD", "TUSD", "USDP", "GUSD", "FRAX", "LUSD",
   "SUSD", "UST", "MIM"]

/-- The string constant "USD" used by the `startsWith`/`endsWith` heuristic. -/
def usdStr : String := "USD"

/-- Heuristic stablecoin classification (`isStablecoin`): exact or substring
match against the known list, or a symbol that starts or ends with "USD". -/
def isStablecoin (tokenSymbol : String) : Bool :=
  let upperSymbol := strToUpper tokenSymbol
  STABLECOIN_SYMBOLS.any (fun stable =>
    upperSymbol == stable ||
    strIncludes upperSymbol stable ||
    strStartsWith upperSymbol usdStr ||
    strEndsWith upperSymbol usdStr)

/-- Round a token amount DOWN to a raw smallest-unit integer
(`roundTokenAmount`): stablecoins round to whole token units; other assets are
first truncated to at most 4 decimals, then converted by floored
whole/fractional decomposition. The returned integer models the decimal
string of the source (the `'0'` return becomes `0`). -/
def roundTokenAmount (amount : ℚ) (tokenDecimals : ℕ) (tokenSymbol : String) : ℤ :=
  if isStablecoin tokenSymbol then
    let wholeUnits : ℤ := ⌊amount⌋
    if wholeUnits ≤ 0 then 0
    else ⌊(wholeUnits : ℚ) * 10 ^ tokenDecimals⌋
  else
    let effectiveDecimals := min tokenDecimals 4
    let scaleFactor : ℚ := 10 ^ effectiveDecimals
    let roundedAmount : ℚ := (⌊amount * scaleFactor⌋ : ℚ) / scaleFactor
    if roundedAmount ≤ 0 then 0
    else
      let wholePart : ℤ := ⌊roundedAmount⌋
      let fractionalPart : ℚ := roundedAmount - (wholePart : ℚ)
      let decimalMultiplier : ℚ := 10 ^ tokenDecimals
      ⌊(wholePart : ℚ) * decimalMultiplier + ((⌊fractionalPart * decimalMultiplier⌋ : ℤ) : ℚ)⌋

/-- One scanned balance (`TokenBalance`); `balance` holds the parsed value of
the source's formatted balance string. -/
structure TokenBalance where
  chainId : ℕ
  chainName : String
  tokenAddress : String
  tokenSymbol : String
  tokenDecimals : ℕ
  balance : ℚ
  balanceUSD : ℚ
deriving DecidableEq, Repr

/-- One quoted bridge option (`BridgeOption`); the `from` field of the source
is `from_` here (`from` is a Lean keyword), the opaque quote is `Unit`, and
the optional allocation fields are `Option`-valued (unset = `none`). -/
structure BridgeOption where
  from_ : TokenBalance
  quote : Unit := ()
  estimatedOutputUSD : ℚ
  estimatedTimeSeconds : ℚ
  estimatedFeesUSD : ℚ
  efficiency : ℚ
  usedInputUSD : Option ℚ := none
  usedOutputUSD : Option ℚ := none
  usedInputAmount : Option ℤ := none
deriving DecidableEq, Repr

/-- Strategy objective tag (`'fastest' | 'cheapest'`). -/
inductive StratType where
  | fastest
  | cheapest
deriving DecidableEq, Repr

/-- A selected deposit strategy (`DepositStrategy`). -/
structure DepositStrategy where
  type : StratType
  bridges : List BridgeOption
  totalInputUSD : ℚ
  totalOutputUSD : ℚ
  totalTimeSeconds : ℚ
  totalFeesUSD : ℚ
  efficiency : ℚ
deriving DecidableEq, Repr

/-- The top-level optimization result (`DepositPlan`). -/
structure DepositPlan where
  targetAmount : ℚ
  availableBalanceUSD : ℚ
  fastest : Option DepositStrategy
  cheapest : Option DepositStrategy
  allBalances : List TokenBalance
  insufficientFunds : Bool
deriving DecidableEq, Repr

/-- Completion tolerance: 95% of target is good enough
(`COMPLETION_TOLERANCE`). -/
def COMPLETION_TOLERANCE : ℚ := 0.95

/-- Minimum per-leg USD output (`MIN_BRIDGE_USD`). -/
def MIN_BRIDGE_USD : ℚ := 1

/-- Minimum deposit to HyperLiquid in USDC (`MIN_HYPERLIQUID_DEPOSIT_USD`). -/
def MIN_HYPERLIQUID_DEPOSIT_USD : ℚ := 5

/-- The inline stablecoin list of `selectOptimalBridges`
(`['USDC', 'USDT', 'DAI', 'BUSD', 'TUSD']`). -/
def inlineStableList : List String := ["USDC", "USDT", "DAI", "BUSD", "TUSD"]

/-- The inline stablecoin test of `selectOptimalBridges`:
`[...].some(s => tokenSymbol.includes(s))` on the uppercased symbol. -/
def isInlineStable (tokenSymbol : String) : Bool :=
  inlineStableList.any (fun s => strIncludes (strToUpper tokenSymbol) s)

/-- The comparator of `selectOptimalBridges` for `'fastest'`: time ascending,
ties broken by estimated output descending. `cmpFastest a b` holds when the JS
comparator returns a non-positive number on `(a, b)`, i.e. the stable sort may
keep `a` before `b`. -/
def cmpFastest (a b : BridgeOption) : Bool :=
  if a.estimatedTimeSeconds = b.estimatedTimeSeconds then
    decide (b.estimatedOutputUSD ≤ a.estimatedOutputUSD)
  else
    decide (a.estimatedTimeSeconds < b.estimatedTimeSeconds)

/-- The comparator of `selectOptimalBridges` for `'cheapest'`: efficiency
descending, ties broken by estimated output descending. -/
def cmpCheapest (a b : BridgeOption) : Bool :=
  if a.efficiency = b.efficiency then
    decide (b.estimatedOutputUSD ≤ a.estimatedOutputUSD)
  else
    decide (b.efficiency < a.efficiency)

/-- Comparator selection by objective. -/
def cmpFor : StratType → BridgeOption → BridgeOption → Bool
  | .fastest => cmpFastest
  | .cheapest => cmpCheapest

/-- Insert `a` into `l` before the first element `b` with `le a b`. -/
def insertLe {α : Type} (le : α → α → Bool) (a : α) : List α → List α
  | [] => [a]
  | b :: l => if le a b then a :: b :: l else b :: insertLe le a l

/-- Stable sort by a boolean total preorder; models the (stable) JavaScript
`Array.prototype.sort` with a comparator whose `≤ 0` relation is `le`. -/
def sortBy {α : Type} (le : α → α → Bool) : List α → List α
  | [] => []
  | a :: l => insertLe le a (sortBy le l)

/-- Running totals of the greedy selection loop of `selectOptimalBridges`. -/
structure SelState where
  selected : List BridgeOption
  totalOutput : ℚ
  totalInput : ℚ
  totalTime : ℚ
  totalFees : ℚ
deriving DecidableEq, Repr

/-- Tail of one loop iteration of `selectOptimalBridges` after the per-path
`usedInputAmount` has been computed: skip a zero amount, recompute actual USD
values from the rounded amount, apply the $1 dust floor, and otherwise push an
allocated copy of the option and accumulate the totals. -/
def finishOption (st : SelState) (option : BridgeOption) (usedInputAmount : ℤ) : SelState :=
  if usedInputAmount = 0 then st
  else
    let actualTokenAmount : ℚ := (usedInputAmount : ℚ) / 10 ^ option.from_.tokenDecimals
    let actualFraction : ℚ := actualTokenAmount / option.from_.balance
    let usedInputUSD := actualFraction * option.from_.balanceUSD
    let usedOutputUSD := actualFraction * option.estimatedOutputUSD
    let usedFees := actualFraction * option.estimatedFeesUSD
    if usedOutputUSD < MIN_BRIDGE_USD then st
    else
      { selected := st.selected ++
          [{ option with
              usedInputUSD := some usedInputUSD,
              usedOutputUSD := some usedOutputUSD,
              usedInputAmount := some usedInputAmount }],
        totalOutput := st.totalOutput + usedOutputUSD,
        totalInput := st.totalInput + usedInputUSD,
        totalTime := st.totalTime + option.estimatedTimeSeconds,
        totalFees := st.totalFees + usedFees }

/-- Body of one loop iteration of `selectOptimalBridges` (everything below the
break conditions): gas-reserve carve-out for native assets, the stablecoin
whole-unit path (`ceil(needed) + 1` capped by the floored available balance),
and the fractional path with `roundTokenAmount` for everything else. -/
def processOption (targetAmount : ℚ) (st : SelState) (option : BridgeOption) : SelState :=
  let originalBalance := option.from_.balance
  let isNative := isNativeToken option.from_.tokenAddress option.from_.tokenSymbol
  let availableBalance :=
    if isNative = true then max 0 (originalBalance - getGasReserve option.from_.chainId)
    else originalBalance
  if isNative = true ∧ availableBalance ≤ 0 then st
  else
    let availableFractionOfOriginal := availableBalance / originalBalance
    let maxAvailableOutputUSD := availableFractionOfOriginal * option.estimatedOutputUSD
    let neededOutput := targetAmount - st.totalOutput
    if isInlineStable option.from_.tokenSymbol = true then
      let unitsNeeded : ℤ := ⌈neededOutput⌉ + 1
      let unitsToUse : ℤ := min unitsNeeded ⌊availableBalance⌋
      if unitsToUse < 1 then st
      else finishOption st option ⌊(unitsToUse : ℚ) * 10 ^ option.from_.tokenDecimals⌋
    else
      let usedTokenAmount :=
        if maxAvailableOutputUSD ≤ neededOutput then availableBalance
        else availableBalance * (neededOutput / maxAvailableOutputUSD)
      finishOption st option
        (roundTokenAmount usedTokenAmount option.from_.tokenDecimals option.from_.tokenSymbol)

/-- The greedy accumulation loop of `selectOptimalBridges`: walk the sorted
options, stopping once the running output reaches the target or 95% of it. -/
def selectLoop (targetAmount : ℚ) : SelState → List BridgeOption → SelState
  | st, [] => st
  | st, option :: rest =>
    if targetAmount ≤ st.totalOutput then st
    else if targetAmount * COMPLETION_TOLERANCE ≤ st.totalOutput then st
    else selectLoop targetAmount (processOption targetAmount st option) rest

/-- Select optimal bridges to reach the target amount
(`selectOptimalBridges`): sort by the objective, run the greedy loop, return
`none` for an empty selection and otherwise the strategy with its totals. -/
def selectOptimalBridges (targetAmount : ℚ) (options : List BridgeOption)
    (strategy : StratType) : Option DepositStrategy :=
  let sortedOptions := sortBy (cmpFor strategy) options
  let final := selectLoop targetAmount ⟨[], 0, 0, 0, 0⟩ sortedOptions
  if final.selected.isEmpty then none
  else some
    { type := strategy,
      bridges := final.selected,
      totalInputUSD := final.totalInput,
      totalOutputUSD := final.totalOutput,
      totalTimeSeconds := final.totalTime,
      totalFeesUSD := final.totalFees,
      efficiency := if 0 < final.totalInput then final.totalOutput / final.totalInput else 0 }

/-- Calculate the fastest and cheapest strategies from the same option list
(`calculateStrategies`). -/
def calculateStrategies (targetAmount : ℚ) (options : List BridgeOption) :
    Option DepositStrategy × Option DepositStrategy :=
  if options.isEmpty then (none, none)
  else
    (selectOptimalBridges targetAmount options .fastest,
     selectOptimalBridges targetAmount options .cheapest)

/-- Main planning function (`calculateDepositPlan`), as a pure function of the
scanned balances and the quoted bridge options (balance scanning and quote
acquisition are network collaborators per the spec). Planning-level conditions
are returned as plan fields; the function is total, it never throws. -/
def calculateDepositPlan (targetAmount : ℚ) (allBalances : List TokenBalance)
    (bridgeOptions : List BridgeOption) : DepositPlan :=
  let availableBalanceUSD := (allBalances.map (fun b => b.balanceUSD)).sum
  if availableBalanceUSD < targetAmount then
    { targetAmount := targetAmount,
      availableBalanceUSD := availableBalanceUSD,
      fastest := none, cheapest := none,
      allBalances := allBalances,
      insufficientFunds := true }
  else if bridgeOptions.isEmpty then
    { targetAmount := targetAmount,
      availableBalanceUSD := availableBalanceUSD,
      fastest := none, cheapest := none,
      allBalances := allBalances,
      insufficientFunds := false }
  else
    let strategies := calculateStrategies targetAmount bridgeOptions
    { targetAmount := targetAmount,
      availableBalanceUSD := availableBalanceUSD,
      fastest := strategies.1, cheapest := strategies.2,
      allBalances := allBalances,
      insufficientFunds := false }

/-! ## Dominance comparison (strategy display decision of `renderSelectStep`) -/

/-- What the select step presents when both strategies exist. -/
structure StrategyDisplay where
  showFastest : Bool
  showCheapest : Bool
  singleBestStrategy : Option StratType
deriving DecidableEq, Repr

/-- The per-bridge identifier used by `areSameBridges`:
`` `${chainId}-${tokenSymbol}-${usedInputAmount || from.balance}` ``. The
third component is the set amount when present and the balance otherwise (for
strategy bridges the amount is always set). -/
def bridgeId (b : BridgeOption) : ℕ × String × (ℤ ⊕ ℚ) :=
  (b.from_.chainId, b.from_.tokenSymbol,
    match b.usedInputAmount with
    | some raw => Sum.inl raw
    | none => Sum.inr b.from_.balance)

/-- `areSameBridges` of `renderSelectStep`: equal leg counts and every bridge
identifier of the fastest strategy also occurs among the cheapest one's. -/
def areSameBridges (fastest cheapest : DepositStrategy) : Bool :=
  if fastest.bridges.length ≠ cheapest.bridges.length then false
  else
    let fastestBridgeIds := fastest.bridges.map bridgeId
    let cheapestBridgeIds := cheapest.bridges.map bridgeId
    fastestBridgeIds.all (fun id => cheapestBridgeIds.contains id)

/-- The identity test of `renderSelectStep`: same bridges and aggregate time,
fees and output within small absolute tolerances. -/
def strategiesAreIdentical (fastest cheapest : DepositStrategy) : Bool :=
  areSameBridges fastest cheapest &&
    decide (|fastest.totalTimeSeconds - cheapest.totalTimeSeconds| ≤ 1) &&
    decide (|fastest.totalFeesUSD - cheapest.totalFeesUSD| < 0.01) &&
    decide (|fastest.totalOutputUSD - cheapest.totalOutputUSD| < 0.10)

/-- The general dominance test of `renderSelectStep`: `dominates a b` holds
when `a` is faster-or-equal, cheaper-or-equal, and delivers at least 95% of
`b`'s output. -/
def dominates (a b : DepositStrategy) : Bool :=
  decide (a.totalTimeSeconds ≤ b.totalTimeSeconds) &&
    decide (a.totalFeesUSD ≤ b.totalFeesUSD) &&
    decide (a.totalOutputUSD ≥ b.totalOutputUSD * 0.95)

/-- The strategy-display decision block of `renderSelectStep` for the case
where both strategies are present: collapse identical strategies, otherwise
present only a one-sidedly dominant (or strictly faster and cheaper-or-equal)
strategy, and present both when neither branch fires. -/
def strategyDisplayDecision (fastest cheapest : DepositStrategy) : StrategyDisplay :=
  if strategiesAreIdentical fastest cheapest = true then
    { showFastest := true, showCheapest := false, singleBestStrategy := some .fastest }
  else
    let cheapestIsCheaperOrEqual := decide (cheapest.totalFeesUSD ≤ fastest.totalFeesUSD)
    let fastestIsCheaperOrEqual := decide (fastest.totalFeesUSD ≤ cheapest.totalFeesUSD)
    let cheapestDominates := dominates cheapest fastest
    let fastestDominates := dominates fastest cheapest
    let cheapestIsActuallyFaster := decide (cheapest.totalTimeSeconds < fastest.totalTimeSeconds)
    let fastestIsActuallyFaster := decide (fastest.totalTimeSeconds < cheapest.totalTimeSeconds)
    if ((cheapestDominates && !fastestDominates) ||
        (cheapestIsActuallyFaster && cheapestIsCheaperOrEqual)) = true then
      { showFastest := false, showCheapest := true, singleBestStrategy := some .cheapest }
    else if ((fastestDominates && !cheapestDominates) ||
        (fastestIsActuallyFaster && fastestIsCheaperOrEqual)) = true then
      { showFastest := true, showCheapest := false, singleBestStrategy := some .fastest }
    else
      { showFastest := true, showCheapest := true, singleBestStrategy := none }

/-! ## Sequential execution (`handleExecute`) and settlement
(`executeHyperLiquidDeposit`) -/

/-- Per-leg display status (`BridgeExecution.status`; the transient
`'executing'` phase is not a terminal state). -/
inductive LegStatus where
  | pending
  | executing
  | completed
  | failed
deriving DecidableEq, Repr

/-- Outcome of running one leg against the bridging collaborator: resolution,
or rejection with an error message. -/
inductive LegResult where
  | success
  | failure (msg : String)
deriving DecidableEq, Repr

/-- The rejection phrases recognised by `isUserRejection`. -/
def REJECTION_PHRASES : List String :=
  ["user rejected", "user denied", "user cancelled", "user canceled",
   "rejected the request", "bundle id is unknown", "has not been submitted",
   "no matching bundle", "action_rejected"]

/-- Check if an error message is a user rejection (`isUserRejection`):
case-insensitive substring match against the known phrases. -/
def isUserRejection (errorMessage : String) : Bool :=
  let lowerMessage := strToLower errorMessage
  REJECTION_PHRASES.any (fun phrase => strIncludes lowerMessage phrase)

/-- The sequential bridge-execution loop of `handleExecute`, as a function of
the per-leg collaborator outcomes: returns the final per-leg statuses and the
local successful-bridge counter. A successful leg is marked completed; a
failed leg is marked failed; a user-rejection failure breaks the loop, so all
later legs keep their initial pending status. -/
def runLegs : List LegResult → List LegStatus × ℕ
  | [] => ([], 0)
  | .success :: rest =>
    let r := runLegs rest
    (.completed :: r.1, r.2 + 1)
  | .failure msg :: rest =>
    if isUserRejection msg then (.failed :: rest.map (fun _ => .pending), 0)
    else
      let r := runLegs rest
      (.failed :: r.1, r.2)

/-- Tail of `handleExecute`: the run proceeds to the HyperLiquid deposit step
exactly when the successful-bridge counter is positive; otherwise it completes
in the error state. -/
def handleExecute (results : List LegResult) : List LegStatus × ℕ × Bool :=
  let r := runLegs results
  (r.1, r.2, decide (0 < r.2))

/-- Result of the settlement step. -/
inductive HLDepositResult where
  | failedMinimum (amountUSDC : ℚ)
  | transferred (amountUSDC : ℚ) (amountSmallestUnits : ℤ)
deriving DecidableEq, Repr

/-- The settlement step (`executeHyperLiquidDeposit`) as a function of the
requested target amount and the actually-available USDC balance on Arbitrum:
deposit `min(requested, available)`; below the minimum threshold the run fails
with no transfer, otherwise a single transfer of the floored smallest-unit
amount is executed. -/
def executeHyperLiquidDeposit (requestedAmount balanceUSDC : ℚ) : HLDepositResult :=
  let depositAmount := min requestedAmount balanceUSDC
  if depositAmount < MIN_HYPERLIQUID_DEPOSIT_USD then .failedMinimum depositAmount
  else .transferred depositAmount ⌊depositAmount * 1000000⌋

/-- The execution run end-to-end: run the legs sequentially, then enter the
settlement step iff at least one leg succeeded (`handleExecute` followed by
`executeHyperLiquidDeposit`). -/
def executeStrategyRun (results : List LegResult) (requestedAmount balanceUSDC : ℚ) :
    Option HLDepositResult :=
  let r := runLegs results
  if 0 < r.2 then some (executeHyperLiquidDeposit requestedAmount balanceUSDC) else none

/-! ## Derived notions used by the statements and proofs -/

/-- The `availableBalance` computed by the selection loop: the source balance
with the gas reserve carved out (clamped at zero) when the asset is a native
gas token, the full balance otherwise. -/
def availOf (o : BridgeOption) : ℚ :=
  if isNativeToken o.from_.tokenAddress o.from_.tokenSymbol = true then
    max 0 (o.from_.balance - getGasReserve o.from_.chainId)
  else o.from_.balance

/-- The claim-level available balance: balance minus the gas reserve for
native assets (no clamping), the full balance otherwise. -/
def claimAvail (tb : TokenBalance) : ℚ :=
  if isNativeToken tb.tokenAddress tb.tokenSymbol = true then
    tb.balance - getGasReserve tb.chainId
  else tb.balance

/-- The `actualFraction` of the selection loop for a rounded raw amount. -/
def fracFor (o : BridgeOption) (raw : ℤ) : ℚ :=
  ((raw : ℚ) / 10 ^ o.from_.tokenDecimals) / o.from_.balance

/-- The allocated per-strategy copy of an option pushed by the selection
loop (`bridgeWithUsage`). -/
def mkAllocated (o : BridgeOption) (raw : ℤ) : BridgeOption :=
  { o with
      usedInputUSD := some (fracFor o raw * o.from_.balanceUSD),
      usedOutputUSD := some (fracFor o raw * o.estimatedOutputUSD),
      usedInputAmount := some raw }

/-- The state transition performed when the selection loop accepts an
option. -/
def pushBridge (st : SelState) (o : BridgeOption) (raw : ℤ) : SelState :=
  { selected := st.selected ++ [mkAllocated o raw],
    totalOutput := st.totalOutput + fracFor o raw * o.estimatedOutputUSD,
    totalInput := st.totalInput + fracFor o raw * o.from_.balanceUSD,
    totalTime := st.totalTime + o.estimatedTimeSeconds,
    totalFees := st.totalFees + fracFor o raw * o.estimatedFeesUSD }

/-- Sum of the committed output USD values over a list of allocated legs. -/
def sumUsedOutput (l : List BridgeOption) : ℚ :=
  (l.map (fun b => b.usedOutputUSD.getD 0)).sum

/-- Sum of the committed input USD values over a list of allocated legs. -/
def sumUsedInput (l : List BridgeOption) : ℚ :=
  (l.map (fun b => b.usedInputUSD.getD 0)).sum

/-- Sum of the underlying balances' USD values over a list of legs. -/
def sumBalanceUSD (l : List BridgeOption) : ℚ :=
  (l.map (fun b => b.from_.balanceUSD)).sum

/-- The terminal status an attempted leg ends in. -/
def attemptedStatus : LegResult → LegStatus
  | .success => .completed
  | .failure _ => .failed

/-- Whether a leg outcome is a user-rejection failure. -/
def isRejLeg : LegResult → Bool
  | .success => false
  | .failure m => isUserRejection m

/-- Whether a leg outcome is a success. -/
def isSuccessLeg : LegResult → Bool
  | .success => true
  | .failure _ => false

/-- Number of successful outcomes in a list. -/
def countSuccess (l : List LegResult) : ℕ := (l.filter isSuccessLeg).length

/-! ## Concrete scenario inputs used by counterexamples and witnesses -/

/-- A wallet holding exactly 12.05 USDC on Ethereum and nothing else
(the spec's $12.05 scenario). -/
def tbUSDC1205 : TokenBalance :=
  { chainId := 1, chainName := "Ethereum",
    tokenAddress := "0xA0b86991c6218b36c1d19D4a2e9Eb0cE3606eB48",
    tokenSymbol := "USDC", tokenDecimals := 6,
    balance := 12.05, balanceUSD := 12.05 }

/-- A bridge option for `tbUSDC1205` quoting at parity (efficiency 1). -/
def optUSDC1205 : BridgeOption :=
  { from_ := tbUSDC1205, estimatedOutputUSD := 12.05, estimatedTimeSeconds := 60,
    estimatedFeesUSD := 0, efficiency := 1 }

/-- A wallet holding 100 USDC on Ethereum. -/
def tbUSDC100 : TokenBalance :=
  { chainId := 1, chainName := "Ethereum",
    tokenAddress := "0xA0b86991c6218b36c1d19D4a2e9Eb0cE3606eB48",
    tokenSymbol := "USDC", tokenDecimals := 6,
    balance := 100, balanceUSD := 100 }

/-- A low-efficiency quote for `tbUSDC100`: only half the input value arrives
at the destination. -/
def optUSDC100lowEff : BridgeOption :=
  { from_ := tbUSDC100, estimatedOutputUSD := 50, estimatedTimeSeconds := 60,
    estimatedFeesUSD := 50, efficiency := 0.5 }

/-- A wallet holding only 0.50 USDC in total (the spec's $0.50 scenario). -/
def tbUSDC050 : TokenBalance :=
  { chainId := 1, chainName := "Ethereum",
    tokenAddress := "0xA0b86991c6218b36c1d19D4a2e9Eb0cE3606eB48",
    tokenSymbol := "USDC", tokenDecimals := 6,
    balance := 0.5, balanceUSD := 0.5 }

/-- An allocated USDC leg on Ethereum (for dominance-comparator inputs). -/
def legEth15 : BridgeOption :=
  { from_ := tbUSDC1205, estimatedOutputUSD := 12.05, estimatedTimeSeconds := 60,
    estimatedFeesUSD := 0.5, efficiency := 0.975,
    usedInputUSD := some 11, usedOutputUSD := some 11, usedInputAmount := some 11000000 }

/-- An allocated USDC leg on Optimism with the same metrics as `legEth15` but
on a different chain. -/
def legOpt15 : BridgeOption :=
  { from_ :=
      { chainId := 10, chainName := "Optimism",
        tokenAddress := "0x0b2C639c533813f4Aa9D7837CAf62653d097Ff85",
        tokenSymbol := "USDC", tokenDecimals := 6,
        balance := 12.05, balanceUSD := 12.05 },
    estimatedOutputUSD := 12.05, estimatedTimeSeconds := 60,
    estimatedFeesUSD := 0.5, efficiency := 0.975,
    usedInputUSD := some 11, usedOutputUSD := some 11, usedInputAmount := some 11000000 }

/-- A fastest-labelled strategy over the Ethereum leg. -/
def stratFastEth : DepositStrategy :=
  { type := .fastest, bridges := [legEth15], totalInputUSD := 11, totalOutputUSD := 11,
    totalTimeSeconds := 60, totalFeesUSD := 0.5, efficiency := 1 }

/-- A cheapest-labelled strategy over the Optimism leg with metrics identical
to `stratFastEth` but different underlying bridges. -/
def stratCheapOpt : DepositStrategy :=
  { type := .cheapest, bridges := [legOpt15], totalInputUSD := 11, totalOutputUSD := 11,
    totalTimeSeconds := 60, totalFeesUSD := 0.5, efficiency := 1 }

/-- A slower and more expensive fastest-labelled strategy. -/
def stratFastSlow : DepositStrategy :=
  { type := .fastest, bridges := [legEth15], totalInputUSD := 11, totalOutputUSD := 11,
    totalTimeSeconds := 100, totalFeesUSD := 2, efficiency := 1 }

/-- A strictly faster and strictly cheaper cheapest-labelled strategy with the
same output. -/
def stratCheapBetter : DepositStrategy :=
  { type := .cheapest, bridges := [legOpt15], totalInputUSD := 11, totalOutputUSD := 11,
    totalTimeSeconds := 50, totalFeesUSD := 1, efficiency := 1 }

/-- A bridge option for the 0.50 USDC balance. -/
def optUSDC050 : BridgeOption :=
  { from_ := tbUSDC050, estimatedOutputUSD := 0.5, estimatedTimeSeconds := 60,
    estimatedFeesUSD := 0, efficiency := 1 }

/-- The allocated single-leg strategy the selector produces for target $10
over `optUSDC1205`: 11 whole USDC units. -/
def stratEleven : DepositStrategy :=
  { type := .fastest,
    bridges :=
      [{ from_ := tbUSDC1205, estimatedOutputUSD := 12.05, estimatedTimeSeconds := 60,
         estimatedFeesUSD := 0, efficiency := 1,
         usedInputUSD := some 11, usedOutputUSD := some 11,
         usedInputAmount := some 11000000 }],
    totalInputUSD := 11, totalOutputUSD := 11, totalTimeSeconds := 60,
    totalFeesUSD := 0, efficiency := 1 }

/-- The error message of a user-rejected signature, as surfaced by wallets. -/
def rejectionMsg : String := "User rejected the request"

/-- A generic non-rejection execution error message. -/
def networkErrMsg : String := "network connection lost"

/-! ## Basic lemmas -/

lemma mem_insertLe {α : Type} (le : α → α → Bool) (a x : α) (l : List α) :
    x ∈ insertLe le a l ↔ x = a ∨ x ∈ l := by
  induction l with
  | nil => simp [insertLe]
  | cons b t ih =>
    simp only [insertLe]
    split
    · simp
    · simp only [List.mem_cons, ih]
      tauto

lemma mem_sortBy {α : Type} (le : α → α → Bool) (x : α) (l : List α) :
    x ∈ sortBy le l ↔ x ∈ l := by
  induction l with
  | nil => simp [sortBy]
  | cons b t ih => simp [sortBy, mem_insertLe, ih]

lemma ite_nonneg_q {c : Prop} [Decidable c] {a b : ℚ} (ha : 0 ≤ a) (hb : 0 ≤ b) :
    0 ≤ if c then a else b := by
  split <;> assumption

lemma gasReserve_nonneg (chainId : ℕ) : 0 ≤ getGasReserve chainId := by
  unfold getGasReserve
  repeat
    first
    | exact le_refl 0
    | apply ite_nonneg_q <;> norm_num [DEFAULT_GAS_RESERVE]

lemma roundTokenAmount_stable (amount : ℚ) (d : ℕ) (sym : String)
    (h : isStablecoin sym = true) :
    roundTokenAmount amount d sym = if ⌊amount⌋ ≤ 0 then 0 else ⌊amount⌋ * 10 ^ d := by
  simp only [roundTokenAmount, h, if_true]
  split_ifs with h1
  · rfl
  · rw [show ((⌊amount⌋ : ℚ) * 10 ^ d) = ((⌊amount⌋ * 10 ^ d : ℤ) : ℚ) by push_cast; ring,
      Int.floor_intCast]

lemma roundTokenAmount_nonstable (amount : ℚ) (d : ℕ) (sym : String)
    (h : isStablecoin sym = false) :
    roundTokenAmount amount d sym =
      if ((⌊amount * 10 ^ min d 4⌋ : ℚ) / 10 ^ min d 4) ≤ 0 then 0
      else
        ⌊(⌊amount * 10 ^ min d 4⌋ : ℚ) / 10 ^ min d 4⌋ * 10 ^ d +
          ⌊Int.fract ((⌊amount * 10 ^ min d 4⌋ : ℚ) / 10 ^ min d 4) * 10 ^ d⌋ := by
  simp only [roundTokenAmount, h, Bool.false_eq_true, if_false]
  split_ifs with h1
  · rfl
  · rw [Int.fract]
    rw [show ((⌊(⌊amount * 10 ^ min d 4⌋ : ℚ) / 10 ^ min d 4⌋ : ℚ) * 10 ^ d +
          ((⌊((⌊amount * 10 ^ min d 4⌋ : ℚ) / 10 ^ min d 4 -
              (⌊(⌊amount * 10 ^ min d 4⌋ : ℚ) / 10 ^ min d 4⌋ : ℚ)) * 10 ^ d⌋ : ℤ) : ℚ)) =
        ((⌊(⌊amount * 10 ^ min d 4⌋ : ℚ) / 10 ^ min d 4⌋ * 10 ^ d +
          ⌊((⌊amount * 10 ^ min d 4⌋ : ℚ) / 10 ^ min d 4 -
              (⌊(⌊amount * 10 ^ min d 4⌋ : ℚ) / 10 ^ min d 4⌋ : ℚ)) * 10 ^ d⌋ : ℤ) : ℚ)
        by push_cast; ring,
      Int.floor_intCast]

lemma roundTokenAmount_nonneg (amount : ℚ) (d : ℕ) (sym : String) :
    0 ≤ roundTokenAmount amount d sym := by
  cases hsym : isStablecoin sym
  · rw [roundTokenAmount_nonstable amount d sym hsym]
    split_ifs with h1
    · exact le_refl 0
    · push_neg at h1
      have hwp : (0 : ℤ) ≤ ⌊(⌊amount * 10 ^ min d 4⌋ : ℚ) / 10 ^ min d 4⌋ :=
        Int.floor_nonneg.2 h1.le
      have hfr : (0 : ℤ) ≤ ⌊Int.fract ((⌊amount * 10 ^ min d 4⌋ : ℚ) / 10 ^ min d 4) * 10 ^ d⌋ :=
        Int.floor_nonneg.2 (mul_nonneg (Int.fract_nonneg _) (by positivity))
      positivity
  · rw [roundTokenAmount_stable amount d sym hsym]
    split_ifs with h1
    · exact le_refl 0
    · push_neg at h1
      positivity

lemma roundTokenAmount_le (amount : ℚ) (d : ℕ) (sym : String) (ha : 0 ≤ amount) :
    ((roundTokenAmount amount d sym : ℤ) : ℚ) ≤ amount * 10 ^ d := by
  cases hsym : isStablecoin sym
  · rw [roundTokenAmount_nonstable amount d sym hsym]
    split_ifs with h1
    · simpa using by positivity
    · have hr_le : (⌊amount * 10 ^ min d 4⌋ : ℚ) / 10 ^ min d 4 ≤ amount := by
        rw [div_le_iff₀ (by positivity)]
        exact Int.floor_le _
      have h2 : ((⌊Int.fract ((⌊amount * 10 ^ min d 4⌋ : ℚ) / 10 ^ min d 4) * 10 ^ d⌋ : ℤ) : ℚ) ≤
          Int.fract ((⌊amount * 10 ^ min d 4⌋ : ℚ) / 10 ^ min d 4) * 10 ^ d :=
        Int.floor_le _
      have h3 : ((⌊(⌊amount * 10 ^ min d 4⌋ : ℚ) / 10 ^ min d 4⌋ : ℤ) : ℚ) +
          Int.fract ((⌊amount * 10 ^ min d 4⌋ : ℚ) / 10 ^ min d 4) =
          (⌊amount * 10 ^ min d 4⌋ : ℚ) / 10 ^ min d 4 := Int.floor_add_fract _
      have h4 : ((⌊amount * 10 ^ min d 4⌋ : ℚ) / 10 ^ min d 4) * 10 ^ d ≤ amount * 10 ^ d :=
        mul_le_mul_of_nonneg_right hr_le (by positivity)
      have h5 : ((⌊(⌊amount * 10 ^ min d 4⌋ : ℚ) / 10 ^ min d 4⌋ : ℤ) : ℚ) * 10 ^ d +
          Int.fract ((⌊amount * 10 ^ min d 4⌋ : ℚ) / 10 ^ min d 4) * 10 ^ d =
          ((⌊amount * 10 ^ min d 4⌋ : ℚ) / 10 ^ min d 4) * 10 ^ d := by
        rw [← add_mul, h3]
      push_cast
      linarith [h2, h4, h5]
  · rw [roundTokenAmount_stable amount d sym hsym]
    split_ifs with h1
    · simpa using by positivity
    · push_cast
      exact mul_le_mul_of_nonneg_right (Int.floor_le amount) (by positivity)

lemma roundTokenAmount_stable_dvd (amount : ℚ) (d : ℕ) (sym : String)
    (h : isStablecoin sym = true) :
    (10 : ℤ) ^ d ∣ roundTokenAmount amount d sym := by
  rw [roundTokenAmount_stable amount d sym h]
  split_ifs
  · exact dvd_zero _
  · exact dvd_mul_left _ _

lemma availOf_nonneg (o : BridgeOption) (hb : 0 ≤ o.from_.balance) : 0 ≤ availOf o := by
  unfold availOf
  split_ifs
  · exact le_max_left 0 _
  · exact hb

lemma availOf_le_balance (o : BridgeOption) (hb : 0 ≤ o.from_.balance) :
    availOf o ≤ o.from_.balance := by
  unfold availOf
  split_ifs
  · exact max_le hb (by linarith [gasReserve_nonneg o.from_.chainId])
  · exact le_rfl

lemma availOf_native_eq (o : BridgeOption)
    (hpos : 0 < availOf o)
    (hnat : isNativeToken o.from_.tokenAddress o.from_.tokenSymbol = true) :
    availOf o = o.from_.balance - getGasReserve o.from_.chainId := by
  unfold availOf at hpos ⊢
  rw [if_pos hnat] at hpos ⊢
  rcases lt_max_iff.mp hpos with h | h
  · exact absurd h (lt_irrefl 0)
  · exact max_eq_right h.le

lemma finishOption_cases (st : SelState) (o : BridgeOption) (raw : ℤ) :
    finishOption st o raw = st ∨
      (raw ≠ 0 ∧ MIN_BRIDGE_USD ≤ fracFor o raw * o.estimatedOutputUSD ∧
        finishOption st o raw = pushBridge st o raw) := by
  simp only [finishOption]
  split_ifs with h0 hdust
  · exact Or.inl rfl
  · exact Or.inl rfl
  · exact Or.inr ⟨h0, not_lt.mp hdust, rfl⟩

lemma processOption_cases (T : ℚ) (st : SelState) (o : BridgeOption)
    (hT : st.totalOutput < T) (hb : 0 < o.from_.balance) :
    processOption T st o = st ∨
      ∃ raw : ℤ,
        processOption T st o = pushBridge st o raw ∧ 0 < raw ∧
        MIN_BRIDGE_USD ≤ fracFor o raw * o.estimatedOutputUSD ∧
        (raw : ℚ) / 10 ^ o.from_.tokenDecimals ≤ availOf o ∧
        (isNativeToken o.from_.tokenAddress o.from_.tokenSymbol = true →
          availOf o = o.from_.balance - getGasReserve o.from_.chainId) ∧
        (isStablecoin o.from_.tokenSymbol = true →
          (10 : ℤ) ^ o.from_.tokenDecimals ∣ raw) ∧
        (isInlineStable o.from_.tokenSymbol = true →
          raw = min (⌈T - st.totalOutput⌉ + 1) ⌊availOf o⌋ * 10 ^ o.from_.tokenDecimals ∧
          1 ≤ min (⌈T - st.totalOutput⌉ + 1) ⌊availOf o⌋) := by
  simp only [processOption]
  rw [show (if isNativeToken o.from_.tokenAddress o.from_.tokenSymbol = true then
      max 0 (o.from_.balance - getGasReserve o.from_.chainId) else o.from_.balance) = availOf o
    from rfl]
  split_ifs with hskip hstable hunits hmaxle
  · exact Or.inl rfl
  · exact Or.inl rfl
  · -- inline-stablecoin path with at least one whole unit
    have hu1 : (1 : ℤ) ≤ min (⌈T - st.totalOutput⌉ + 1) ⌊availOf o⌋ := not_lt.mp hunits
    have hfloor :
        ⌊((min (⌈T - st.totalOutput⌉ + 1) ⌊availOf o⌋ : ℤ) : ℚ) * 10 ^ o.from_.tokenDecimals⌋ =
          min (⌈T - st.totalOutput⌉ + 1) ⌊availOf o⌋ * 10 ^ o.from_.tokenDecimals := by
      rw [show ((min (⌈T - st.totalOutput⌉ + 1) ⌊availOf o⌋ : ℤ) : ℚ) *
            10 ^ o.from_.tokenDecimals =
          ((min (⌈T - st.totalOutput⌉ + 1) ⌊availOf o⌋ * 10 ^ o.from_.tokenDecimals : ℤ) : ℚ)
        by push_cast; ring, Int.floor_intCast]
    rw [hfloor]
    rcases finishOption_cases st o
        (min (⌈T - st.totalOutput⌉ + 1) ⌊availOf o⌋ * 10 ^ o.from_.tokenDecimals) with
      hc | ⟨h0, hmin, heq⟩
    · exact Or.inl hc
    · refine Or.inr ⟨_, heq, ?_, hmin, ?_, ?_, ?_, ?_⟩
      · exact mul_pos (by linarith) (pow_pos (by norm_num) _)
      · have hdiv :
            ((min (⌈T - st.totalOutput⌉ + 1) ⌊availOf o⌋ * 10 ^ o.from_.tokenDecimals : ℤ) : ℚ) /
              10 ^ o.from_.tokenDecimals =
            ((min (⌈T - st.totalOutput⌉ + 1) ⌊availOf o⌋ : ℤ) : ℚ) := by
          push_cast
          field_simp
        rw [hdiv]
        calc ((min (⌈T - st.totalOutput⌉ + 1) ⌊availOf o⌋ : ℤ) : ℚ)
            ≤ ((⌊availOf o⌋ : ℤ) : ℚ) := by exact_mod_cast min_le_right _ _
          _ ≤ availOf o := Int.floor_le _
      · intro hnat
        have hpos : 0 < availOf o := by
          by_contra hle
          exact hskip ⟨hnat, not_lt.mp hle⟩
        exact availOf_native_eq o hpos hnat
      · intro _
        exact dvd_mul_left _ _
      · intro _
        exact ⟨rfl, hu1⟩
  · -- non-stablecoin path, the option alone cannot reach the target: use all
    have hamt : 0 ≤ availOf o ∧ availOf o ≤ availOf o :=
      ⟨availOf_nonneg o hb.le, le_rfl⟩
    rcases finishOption_cases st o
        (roundTokenAmount (availOf o) o.from_.tokenDecimals o.from_.tokenSymbol) with
      hc | ⟨h0, hmin, heq⟩
    · exact Or.inl hc
    · refine Or.inr ⟨_, heq, ?_, hmin, ?_, ?_, ?_, ?_⟩
      · exact lt_of_le_of_ne (roundTokenAmount_nonneg _ _ _) (Ne.symm h0)
      · rw [div_le_iff₀ (by positivity)]
        calc ((roundTokenAmount (availOf o) o.from_.tokenDecimals o.from_.tokenSymbol : ℤ) : ℚ)
            ≤ availOf o * 10 ^ o.from_.tokenDecimals :=
              roundTokenAmount_le _ _ _ hamt.1
          _ = availOf o * 10 ^ o.from_.tokenDecimals := rfl
      · intro hnat
        have hpos : 0 < availOf o := by
          by_contra hle
          exact hskip ⟨hnat, not_lt.mp hle⟩
        exact availOf_native_eq o hpos hnat
      · intro hst
        exact roundTokenAmount_stable_dvd _ _ _ hst
      · intro hx
        exact absurd hx hstable
  · -- non-stablecoin path, partial allocation of the needed fraction
    have hneed : 0 < T - st.totalOutput := by linarith
    have hmax : T - st.totalOutput < availOf o / o.from_.balance * o.estimatedOutputUSD :=
      not_le.mp hmaxle
    have hmaxpos : 0 < availOf o / o.from_.balance * o.estimatedOutputUSD :=
      lt_trans hneed hmax
    have hfrac0 : 0 ≤ (T - st.totalOutput) / (availOf o / o.from_.balance * o.estimatedOutputUSD) :=
      div_nonneg hneed.le hmaxpos.le
    have hfrac1 : (T - st.totalOutput) / (availOf o / o.from_.balance * o.estimatedOutputUSD) ≤ 1 :=
      le_of_lt ((div_lt_one hmaxpos).mpr hmax)
    have hamt0 : 0 ≤ availOf o *
        ((T - st.totalOutput) / (availOf o / o.from_.balance * o.estimatedOutputUSD)) :=
      mul_nonneg (availOf_nonneg o hb.le) hfrac0
    have hamtle : availOf o *
        ((T - st.totalOutput) / (availOf o / o.from_.balance * o.estimatedOutputUSD)) ≤
        availOf o :=
      mul_le_of_le_one_right (availOf_nonneg o hb.le) hfrac1
    rcases finishOption_cases st o
        (roundTokenAmount
          (availOf o * ((T - st.totalOutput) / (availOf o / o.from_.balance * o.estimatedOutputUSD)))
          o.from_.tokenDecimals o.from_.tokenSymbol) with
      hc | ⟨h0, hmin, heq⟩
    · exact Or.inl hc
    · refine Or.inr ⟨_, heq, ?_, hmin, ?_, ?_, ?_, ?_⟩
      · exact lt_of_le_of_ne (roundTokenAmount_nonneg _ _ _) (Ne.symm h0)
      · rw [div_le_iff₀ (by positivity)]
        calc ((roundTokenAmount
                (availOf o *
                  ((T - st.totalOutput) / (availOf o / o.from_.balance * o.estimatedOutputUSD)))
                o.from_.tokenDecimals o.from_.tokenSymbol : ℤ) : ℚ)
            ≤ availOf o *
                ((T - st.totalOutput) / (availOf o / o.from_.balance * o.estimatedOutputUSD)) *
                10 ^ o.from_.tokenDecimals :=
              roundTokenAmount_le _ _ _ hamt0
          _ ≤ availOf o * 10 ^ o.from_.tokenDecimals :=
              mul_le_mul_of_nonneg_right hamtle (by positivity)
      · intro hnat
        have hpos : 0 < availOf o := by
          by_contra hle
          exact hskip ⟨hnat, not_lt.mp hle⟩
        exact availOf_native_eq o hpos hnat
      · intro hst
        exact roundTokenAmount_stable_dvd _ _ _ hst
      · intro hx
        exact absurd hx hstable

lemma selectLoop_invariant (T : ℚ) (P : SelState → Prop) (l : List BridgeOption)
    (hstep : ∀ st o, o ∈ l → st.totalOutput < T →
      st.totalOutput < T * COMPLETION_TOLERANCE → P st → P (processOption T st o)) :
    ∀ st, P st → P (selectLoop T st l) := by
  induction l with
  | nil =>
    intro st hP
    simpa [selectLoop] using hP
  | cons o rest ih =>
    intro st hP
    simp only [selectLoop]
    split_ifs with h1 h2
    · exact hP
    · exact hP
    · exact ih
        (fun st' o' ho' => hstep st' o' (List.mem_cons_of_mem _ ho'))
        _ (hstep st o (List.mem_cons_self _ _) (not_le.mp h1) (not_le.mp h2) hP)

lemma selectOptimalBridges_eq (T : ℚ) (opts : List BridgeOption) (strat : StratType)
    (s : DepositStrategy) (hs : selectOptimalBridges T opts strat = some s) :
    s.bridges = (selectLoop T ⟨[], 0, 0, 0, 0⟩ (sortBy (cmpFor strat) opts)).selected ∧
    s.totalOutputUSD = (selectLoop T ⟨[], 0, 0, 0, 0⟩ (sortBy (cmpFor strat) opts)).totalOutput ∧
    s.totalInputUSD = (selectLoop T ⟨[], 0, 0, 0, 0⟩ (sortBy (cmpFor strat) opts)).totalInput := by
  simp only [selectOptimalBridges] at hs
  by_cases hemp :
      (selectLoop T ⟨[], 0, 0, 0, 0⟩ (sortBy (cmpFor strat) opts)).selected.isEmpty
  · rw [if_pos hemp] at hs
    exact absurd hs (by simp)
  · rw [if_neg hemp] at hs
    injection hs with h
    subst h
    exact ⟨rfl, rfl, rfl⟩

lemma processOption_shape (T : ℚ) (st : SelState) (o : BridgeOption) :
    processOption T st o = st ∨ ∃ raw : ℤ, processOption T st o = pushBridge st o raw := by
  simp only [processOption]
  rw [show (if isNativeToken o.from_.tokenAddress o.from_.tokenSymbol = true then
      max 0 (o.from_.balance - getGasReserve o.from_.chainId) else o.from_.balance) = availOf o
    from rfl]
  split_ifs with hskip hstable hunits hmaxle
  · exact Or.inl rfl
  · exact Or.inl rfl
  · rcases finishOption_cases st o
        _ with hc | ⟨_, _, heq⟩
    · exact Or.inl hc
    · exact Or.inr ⟨_, heq⟩
  · rcases finishOption_cases st o
        _ with hc | ⟨_, _, heq⟩
    · exact Or.inl hc
    · exact Or.inr ⟨_, heq⟩
  · rcases finishOption_cases st o
        _ with hc | ⟨_, _, heq⟩
    · exact Or.inl hc
    · exact Or.inr ⟨_, heq⟩

lemma runLegs_rej (m : String) (post : List LegResult) (h : isUserRejection m = true) :
    runLegs (.failure m :: post) = (.failed :: post.map (fun _ => .pending), 0) := by
  simp [runLegs, h]

lemma runLegs_no_rej_append (pre rest : List LegResult)
    (hpre : ∀ r ∈ pre, isRejLeg r = false) :
    runLegs (pre ++ rest) =
      (pre.map attemptedStatus ++ (runLegs rest).1,
        countSuccess pre + (runLegs rest).2) := by
  induction pre with
  | nil => simp [countSuccess]
  | cons r pre ih =>
    have hr : isRejLeg r = false := hpre r (List.mem_cons_self _ _)
    have hpre2 : ∀ x ∈ pre, isRejLeg x = false :=
      fun x hx => hpre x (List.mem_cons_of_mem _ hx)
    cases r with
    | success =>
      simp only [List.cons_append, runLegs, List.append_eq]
      rw [ih hpre2]
      simp [attemptedStatus, countSuccess, isSuccessLeg, List.filter_cons]
      try omega
    | failure msg =>
      have hm : isUserRejection msg = false := by simpa [isRejLeg] using hr
      simp only [List.cons_append, runLegs, hm, Bool.false_eq_true, if_false, List.append_eq]
      rw [ih hpre2]
      simp [attemptedStatus, countSuccess, isSuccessLeg, List.filter_cons]
      try omega

/-! ## Claim theorems -/

/-- C3: whenever the total scanned available USD balance is strictly below the
target, `calculateDepositPlan` returns a plan with `insufficientFunds = true`
and `fastest = cheapest = null`; likewise, with sufficient funds but no bridge
options the plan has both strategies null and `insufficientFunds = false`.
Both conditions are returned as plan fields; the embedded function is total,
mirroring the source, which returns early instead of throwing. -/
theorem plan_insufficient_and_no_routes (T : ℚ) (balances : List TokenBalance)
    (options : List BridgeOption) :
    ((balances.map (fun b => b.balanceUSD)).sum < T →
      calculateDepositPlan T balances options =
        { targetAmount := T,
          availableBalanceUSD := (balances.map (fun b => b.balanceUSD)).sum,
          fastest := none, cheapest := none, allBalances := balances,
          insufficientFunds := true }) ∧
    (¬ (balances.map (fun b => b.balanceUSD)).sum < T → options = [] →
      calculateDepositPlan T balances options =
        { targetAmount := T,
          availableBalanceUSD := (balances.map (fun b => b.balanceUSD)).sum,
          fastest := none, cheapest := none, allBalances := balances,
          insufficientFunds := false }) := by
  constructor
  · intro h
    simp only [calculateDepositPlan]
    rw [if_pos h]
  · intro h hopt
    simp only [calculateDepositPlan]
    rw [if_neg h, if_pos (by simp [hopt])]

/-- Witness for C3: the $0.50-total wallet with target $5. -/
theorem plan_insufficient_witness :
    calculateDepositPlan 5 [tbUSDC050] [] =
      { targetAmount := 5, availableBalanceUSD := ([tbUSDC050].map (fun b => b.balanceUSD)).sum,
        fastest := none, cheapest := none, allBalances := [tbUSDC050],
        insufficientFunds := true } :=
  (plan_insufficient_and_no_routes 5 [tbUSDC050] []).1
    (by norm_num [tbUSDC050])

/-- C7: during sequential execution, a user-rejected leg halts the run (later
legs stay pending), any other failure lets the remaining legs run, and the
settlement step is entered iff at least one leg succeeded. -/
theorem execution_failure_policy (pre : List LegResult) (m : String)
    (post : List LegResult) (hpre : ∀ r ∈ pre, isRejLeg r = false) :
    (isUserRejection m = true →
      runLegs (pre ++ .failure m :: post) =
        (pre.map attemptedStatus ++ .failed :: post.map (fun _ => .pending),
          countSuccess pre)) ∧
    (isUserRejection m = false →
      runLegs (pre ++ .failure m :: post) =
        (pre.map attemptedStatus ++ .failed :: (runLegs post).1,
          countSuccess pre + (runLegs post).2)) ∧
    ((handleExecute (pre ++ .failure m :: post)).2.2 = true ↔
      0 < (runLegs (pre ++ .failure m :: post)).2) := by
  refine ⟨?_, ?_, ?_⟩
  · intro hm
    rw [runLegs_no_rej_append pre (.failure m :: post) hpre, runLegs_rej m post hm]
    simp
  · intro hm
    rw [runLegs_no_rej_append pre (.failure m :: post) hpre]
    simp [runLegs, hm]
  · simp [handleExecute]

/-- Witness for C7: leg 1 succeeds, leg 2 is a user rejection, leg 3 is never
attempted; one success, so settlement is entered. -/
theorem execution_failure_policy_witness :
    runLegs ([.success] ++ .failure rejectionMsg :: [.success]) =
      ([.completed, .failed, .pending], 1) ∧
    (handleExecute ([.success] ++ .failure rejectionMsg :: [.success])).2.2 = true := by
  have h :=
    execution_failure_policy [.success] rejectionMsg [.success] (by decide)
  have h1 := h.1 (by decide)
  refine ⟨?_, ?_⟩
  · rw [h1]
    rfl
  · exact (h.2.2).mpr (by rw [h1]; decide)

/-- C8: when at least one leg succeeded, settlement deposits
`min(requested, available)`; below the 5 USDC minimum the run fails with no
transfer, otherwise exactly one transfer of the floored smallest-unit amount
is executed; with zero successes settlement is skipped entirely. -/
theorem settlement_min_threshold (results : List LegResult) (req bal : ℚ)
    (hsucc : 0 < (runLegs results).2) :
    (min req bal < MIN_HYPERLIQUID_DEPOSIT_USD →
      executeStrategyRun results req bal = some (.failedMinimum (min req bal))) ∧
    (MIN_HYPERLIQUID_DEPOSIT_USD ≤ min req bal →
      executeStrategyRun results req bal =
        some (.transferred (min req bal) ⌊min req bal * 1000000⌋)) ∧
    (∀ results2 : List LegResult, (runLegs results2).2 = 0 →
      executeStrategyRun results2 req bal = none) := by
  refine ⟨?_, ?_, ?_⟩
  · intro h
    simp only [executeStrategyRun, executeHyperLiquidDeposit]
    rw [if_pos hsucc, if_pos h]
  · intro h
    simp only [executeStrategyRun, executeHyperLiquidDeposit]
    rw [if_pos hsucc, if_neg (not_lt.mpr h)]
  · intro results2 h2
    simp only [executeStrategyRun]
    rw [if_neg (by omega)]

/-- Witness for C8: one successful leg, target $10, settled balance $7.20:
a single transfer of 7200000 raw USDC units (= $7.20). -/
theorem settlement_min_threshold_witness :
    executeStrategyRun [.success] 10 7.2 =
      some (.transferred (min (10 : ℚ) 7.2) ⌊min (10 : ℚ) 7.2 * 1000000⌋) ∧
    min (10 : ℚ) 7.2 = 7.2 ∧ ⌊min (10 : ℚ) 7.2 * 1000000⌋ = 7200000 := by
  refine ⟨?_, by norm_num, by norm_num⟩
  exact (settlement_min_threshold [.success] 10 7.2 (by simp [runLegs])).2.1
    (by norm_num [MIN_HYPERLIQUID_DEPOSIT_USD])


/-- C1 counterexample: with exactly $12.05 of USDC and target $10, both
selected strategies allocate 11 whole USDC units (raw 11000000), not the 12
whole units the claim asserts. -/
theorem twelve_units_counterexample :
    ((calculateDepositPlan 10 [tbUSDC1205] [optUSDC1205]).fastest.map
      (fun s => s.bridges.map (fun b => b.usedInputAmount))) = some [some 11000000] ∧
    ((calculateDepositPlan 10 [tbUSDC1205] [optUSDC1205]).cheapest.map
      (fun s => s.bridges.map (fun b => b.usedInputAmount))) = some [some 11000000] ∧
    (some [some (11000000 : ℤ)] : Option (List (Option ℤ))) ≠
      some [some (12 * 10 ^ 6)] := by
  have hnat : isNativeToken "0xA0b86991c6218b36c1d19D4a2e9Eb0cE3606eB48" "USDC" = false := by
    decide
  have hstab : isInlineStable "USDC" = true := by decide
  refine ⟨?_, ?_, by decide⟩ <;>
    norm_num [calculateDepositPlan, calculateStrategies, selectOptimalBridges, sortBy, insertLe,
      selectLoop, processOption, finishOption, COMPLETION_TOLERANCE, MIN_BRIDGE_USD,
      tbUSDC1205, optUSDC1205, hnat, hstab]

/-- C1 amended: the $12.05/$10 scenario yields a single-leg strategy with
`insufficientFunds = false` whose allocated amount is exactly 11 whole USDC
units — `min(ceil(needed) + 1, floor(balance)) = min(11, 12)` — because the
stablecoin path allocates one extra whole unit for fees instead of only the
needed fraction (it still never allocates more than the floored balance). -/
theorem single_leg_eleven_units :
    (calculateDepositPlan 10 [tbUSDC1205] [optUSDC1205]).insufficientFunds = false ∧
    ((calculateDepositPlan 10 [tbUSDC1205] [optUSDC1205]).fastest.map
      (fun s => (s.bridges.length, s.bridges.map (fun b => b.usedInputAmount)))) =
      some (1, [some (11 * 10 ^ 6)]) ∧
    ((calculateDepositPlan 10 [tbUSDC1205] [optUSDC1205]).cheapest.map
      (fun s => (s.bridges.length, s.bridges.map (fun b => b.usedInputAmount)))) =
      some (1, [some (11 * 10 ^ 6)]) ∧
    (11 : ℤ) = min (⌈(10 : ℚ) - 0⌉ + 1) ⌊(12.05 : ℚ)⌋ := by
  have hnat : isNativeToken "0xA0b86991c6218b36c1d19D4a2e9Eb0cE3606eB48" "USDC" = false := by
    decide
  have hstab : isInlineStable "USDC" = true := by decide
  refine ⟨?_, ?_, ?_, by norm_num⟩ <;>
    norm_num [calculateDepositPlan, calculateStrategies, selectOptimalBridges, sortBy, insertLe,
      selectLoop, processOption, finishOption, COMPLETION_TOLERANCE, MIN_BRIDGE_USD,
      tbUSDC1205, optUSDC1205, hnat, hstab]

/-- C4 counterexample: with $100 of USDC available, target $90 (within the
total), and a quote at 50% efficiency, both returned strategies are non-null
but their `totalOutputUSD` is $45.50, well below 95% of the target ($85.50);
so a target within the available balance does not guarantee the 95% band. -/
theorem target_within_balance_counterexample :
    (calculateDepositPlan 90 [tbUSDC100] [optUSDC100lowEff]).insufficientFunds = false ∧
    ((calculateDepositPlan 90 [tbUSDC100] [optUSDC100lowEff]).fastest.map
      (fun s => s.totalOutputUSD)) = some (91 / 2 : ℚ) ∧
    ((calculateDepositPlan 90 [tbUSDC100] [optUSDC100lowEff]).cheapest.map
      (fun s => s.totalOutputUSD)) = some (91 / 2 : ℚ) ∧
    ¬ ((90 : ℚ) * COMPLETION_TOLERANCE ≤ 91 / 2) := by
  have hnat : isNativeToken "0xA0b86991c6218b36c1d19D4a2e9Eb0cE3606eB48" "USDC" = false := by
    decide
  have hstab : isInlineStable "USDC" = true := by decide
  refine ⟨?_, ?_, ?_, by norm_num [COMPLETION_TOLERANCE]⟩ <;>
    norm_num [calculateDepositPlan, calculateStrategies, selectOptimalBridges, sortBy, insertLe,
      selectLoop, processOption, finishOption, COMPLETION_TOLERANCE, MIN_BRIDGE_USD,
      tbUSDC100, optUSDC100lowEff, hnat, hstab]

/-- C4 amended: what the greedy loop does guarantee is the no-inflation half:
every bridge of a returned strategy was added while the accumulated output was
still strictly below 95% of the target (and below the target itself), so every
proper prefix of the bridge list sums below both bounds, and the strategy
total is exactly the sum of its legs. Reaching 95% of the target is not
implied by target ≤ available balance. -/
theorem output_prefix_below_tolerance (T : ℚ) (opts : List BridgeOption)
    (strat : StratType) (s : DepositStrategy)
    (hs : selectOptimalBridges T opts strat = some s) :
    (∀ i < s.bridges.length,
      sumUsedOutput (s.bridges.take i) < T * COMPLETION_TOLERANCE ∧
      sumUsedOutput (s.bridges.take i) < T) ∧
    s.totalOutputUSD = sumUsedOutput s.bridges := by
  obtain ⟨hbr, hout, -⟩ := selectOptimalBridges_eq T opts strat s hs
  have key :
      (fun st : SelState => st.totalOutput = sumUsedOutput st.selected ∧
        ∀ i < st.selected.length,
          sumUsedOutput (st.selected.take i) < T * COMPLETION_TOLERANCE ∧
          sumUsedOutput (st.selected.take i) < T)
      (selectLoop T ⟨[], 0, 0, 0, 0⟩ (sortBy (cmpFor strat) opts)) := by
    refine selectLoop_invariant T
      (fun st : SelState => st.totalOutput = sumUsedOutput st.selected ∧
        ∀ i < st.selected.length,
          sumUsedOutput (st.selected.take i) < T * COMPLETION_TOLERANCE ∧
          sumUsedOutput (st.selected.take i) < T)
      (sortBy (cmpFor strat) opts) ?_ _ ?_
    · intro st o ho hT1 hT2 hP
      rcases processOption_shape T st o with heq | ⟨raw, heq⟩
      · rw [heq]
        exact hP
      · rw [heq]
        obtain ⟨hsum, hpref⟩ := hP
        constructor
        · simp only [pushBridge, sumUsedOutput, List.map_append, List.sum_append,
            List.map_cons, List.map_nil, List.sum_cons, List.sum_nil, mkAllocated]
          rw [← sumUsedOutput, ← hsum]
          simp
        · intro i hi
          simp only [pushBridge, List.length_append, List.length_cons,
            List.length_nil] at hi
          rcases Nat.lt_succ_iff_lt_or_eq.mp hi with hlt | heq2
          · simp only [pushBridge]
            rw [List.take_append_of_le_length (le_of_lt hlt)]
            exact hpref i hlt
          · simp only [pushBridge]
            rw [heq2, List.take_left]
            rw [← hsum]
            exact ⟨hT2, hT1⟩
    · refine ⟨by simp [sumUsedOutput], ?_⟩
      intro i hi
      exact absurd hi (by simp)
  refine ⟨?_, ?_⟩
  · intro i hi
    rw [hbr] at hi ⊢
    exact key.2 i hi
  · rw [hout, hbr]
    exact key.1

/-- Witness for C4 amended: the single-leg strategy for target $10 over the
$12.05 USDC option; its only proper prefix is empty, summing to 0 < 9.5. -/
theorem output_prefix_below_tolerance_witness :
    selectOptimalBridges 10 [optUSDC1205] .fastest = some stratEleven ∧
    ((∀ i < stratEleven.bridges.length,
      sumUsedOutput (stratEleven.bridges.take i) < 10 * COMPLETION_TOLERANCE ∧
      sumUsedOutput (stratEleven.bridges.take i) < 10) ∧
    stratEleven.totalOutputUSD = sumUsedOutput stratEleven.bridges) := by
  have hnat : isNativeToken "0xA0b86991c6218b36c1d19D4a2e9Eb0cE3606eB48" "USDC" = false := by
    decide
  have hstab : isInlineStable "USDC" = true := by decide
  have hsel : selectOptimalBridges 10 [optUSDC1205] .fastest = some stratEleven := by
    norm_num [selectOptimalBridges, sortBy, insertLe, selectLoop, processOption, finishOption,
      COMPLETION_TOLERANCE, MIN_BRIDGE_USD, tbUSDC1205, optUSDC1205, stratEleven, hnat, hstab,
      cmpFor]
  exact ⟨hsel, output_prefix_below_tolerance 10 [optUSDC1205] .fastest stratEleven hsel⟩


/-- C2: for every strategy the selector returns (over options with positive
balances and nonnegative USD values, as the scanner produces), each leg's raw
`usedInputAmount` converted back to human units is at most the source balance
minus the gas reserve for native assets (at most the balance otherwise), each
leg's `usedInputUSD` is at most its balance's USD value, and hence the sum of
`usedInputUSD` over the strategy is at most the sum of the underlying
`balanceUSD`. -/
theorem usedInput_within_available (T : ℚ) (opts : List BridgeOption)
    (strat : StratType) (s : DepositStrategy)
    (hopts : ∀ o ∈ opts, 0 < o.from_.balance ∧ 0 ≤ o.from_.balanceUSD)
    (hs : selectOptimalBridges T opts strat = some s) :
    (∀ b ∈ s.bridges,
      ((b.usedInputAmount.getD 0 : ℤ) : ℚ) / 10 ^ b.from_.tokenDecimals ≤
        claimAvail b.from_ ∧
      b.usedInputUSD.getD 0 ≤ b.from_.balanceUSD) ∧
    sumUsedInput s.bridges ≤ sumBalanceUSD s.bridges := by
  obtain ⟨hbr, -, -⟩ := selectOptimalBridges_eq T opts strat s hs
  have key : ∀ b ∈ (selectLoop T ⟨[], 0, 0, 0, 0⟩ (sortBy (cmpFor strat) opts)).selected,
      ((b.usedInputAmount.getD 0 : ℤ) : ℚ) / 10 ^ b.from_.tokenDecimals ≤
        claimAvail b.from_ ∧
      b.usedInputUSD.getD 0 ≤ b.from_.balanceUSD := by
    refine selectLoop_invariant T
      (fun st : SelState => ∀ b ∈ st.selected,
        ((b.usedInputAmount.getD 0 : ℤ) : ℚ) / 10 ^ b.from_.tokenDecimals ≤
          claimAvail b.from_ ∧
        b.usedInputUSD.getD 0 ≤ b.from_.balanceUSD)
      (sortBy (cmpFor strat) opts) ?_ _ (by simp)
    intro st o ho hT1 hT2 hP
    have hmem := hopts o ((mem_sortBy _ _ _).mp ho)
    rcases processOption_cases T st o hT1 hmem.1 with
      heq | ⟨raw, heq, hpos, hmin, hle, hnatEq, hdvd, hstab⟩
    · rw [heq]
      exact hP
    · rw [heq]
      intro b hb
      simp only [pushBridge, List.mem_append, List.mem_singleton] at hb
      rcases hb with hb | rfl
      · exact hP b hb
      · have hca : claimAvail o.from_ = availOf o := by
          unfold claimAvail
          by_cases hn : isNativeToken o.from_.tokenAddress o.from_.tokenSymbol = true
          · rw [if_pos hn, hnatEq hn]
          · rw [if_neg hn]
            unfold availOf
            rw [if_neg hn]
        constructor
        · simp only [mkAllocated, Option.getD_some]
          rw [hca]
          exact hle
        · simp only [mkAllocated, Option.getD_some]
          have hfr1 : fracFor o raw ≤ 1 := by
            unfold fracFor
            rw [div_le_one hmem.1]
            exact le_trans hle (availOf_le_balance o hmem.1.le)
          exact mul_le_of_le_one_left hmem.2 hfr1
  constructor
  · rw [hbr]
    exact key
  · rw [hbr]
    unfold sumUsedInput sumBalanceUSD
    refine List.sum_le_sum ?_
    intro b hb
    exact (key b hb).2

/-- Witness for C2: the single-leg $12.05/$10 scenario; the allocated 11 units
stay below the 12.05 balance and the $11 input below the $12.05 value. -/
theorem usedInput_within_available_witness :
    selectOptimalBridges 10 [optUSDC1205] .fastest = some stratEleven ∧
    ((∀ b ∈ stratEleven.bridges,
      ((b.usedInputAmount.getD 0 : ℤ) : ℚ) / 10 ^ b.from_.tokenDecimals ≤
        claimAvail b.from_ ∧
      b.usedInputUSD.getD 0 ≤ b.from_.balanceUSD) ∧
    sumUsedInput stratEleven.bridges ≤ sumBalanceUSD stratEleven.bridges) := by
  have hnat : isNativeToken "0xA0b86991c6218b36c1d19D4a2e9Eb0cE3606eB48" "USDC" = false := by
    decide
  have hstab : isInlineStable "USDC" = true := by decide
  have hsel : selectOptimalBridges 10 [optUSDC1205] .fastest = some stratEleven := by
    norm_num [selectOptimalBridges, sortBy, insertLe, selectLoop, processOption, finishOption,
      COMPLETION_TOLERANCE, MIN_BRIDGE_USD, tbUSDC1205, optUSDC1205, stratEleven, hnat, hstab,
      cmpFor]
  refine ⟨hsel, usedInput_within_available 10 [optUSDC1205] .fastest stratEleven ?_ hsel⟩
  intro o ho
  rw [List.mem_singleton] at ho
  subst ho
  norm_num [optUSDC1205, tbUSDC1205]

/-- C5: every leg of a returned strategy whose source symbol is
stablecoin-classified (by the `isStablecoin` list-or-heuristic) carries a raw
`usedInputAmount` that is an exact multiple of `10 ^ tokenDecimals`: the
inline stablecoin path allocates whole units directly, and a
stablecoin-classified symbol that misses the inline list is still rounded to
whole units by `roundTokenAmount`. -/
theorem stablecoin_whole_units (T : ℚ) (opts : List BridgeOption)
    (strat : StratType) (s : DepositStrategy)
    (hopts : ∀ o ∈ opts, 0 < o.from_.balance)
    (hs : selectOptimalBridges T opts strat = some s) :
    ∀ b ∈ s.bridges, isStablecoin b.from_.tokenSymbol = true →
      (10 : ℤ) ^ b.from_.tokenDecimals ∣ b.usedInputAmount.getD 0 := by
  obtain ⟨hbr, -, -⟩ := selectOptimalBridges_eq T opts strat s hs
  rw [hbr]
  refine selectLoop_invariant T
    (fun st : SelState => ∀ b ∈ st.selected,
      isStablecoin b.from_.tokenSymbol = true →
      (10 : ℤ) ^ b.from_.tokenDecimals ∣ b.usedInputAmount.getD 0)
    (sortBy (cmpFor strat) opts) ?_ _ (by simp)
  intro st o ho hT1 hT2 hP
  rcases processOption_cases T st o hT1 (hopts o ((mem_sortBy _ _ _).mp ho)) with
    heq | ⟨raw, heq, hpos, hmin, hle, hnatEq, hdvd, hstab⟩
  · rw [heq]
    exact hP
  · rw [heq]
    intro b hb
    simp only [pushBridge, List.mem_append, List.mem_singleton] at hb
    rcases hb with hb | rfl
    · exact hP b hb
    · intro hstable
      simp only [mkAllocated, Option.getD_some]
      exact hdvd hstable

/-- Witness for C5: the 11-unit USDC leg: 10^6 divides 11000000. -/
theorem stablecoin_whole_units_witness :
    selectOptimalBridges 10 [optUSDC1205] .fastest = some stratEleven ∧
    (∀ b ∈ stratEleven.bridges, isStablecoin b.from_.tokenSymbol = true →
      (10 : ℤ) ^ b.from_.tokenDecimals ∣ b.usedInputAmount.getD 0) := by
  have hnat : isNativeToken "0xA0b86991c6218b36c1d19D4a2e9Eb0cE3606eB48" "USDC" = false := by
    decide
  have hstab : isInlineStable "USDC" = true := by decide
  have hsel : selectOptimalBridges 10 [optUSDC1205] .fastest = some stratEleven := by
    norm_num [selectOptimalBridges, sortBy, insertLe, selectLoop, processOption, finishOption,
      COMPLETION_TOLERANCE, MIN_BRIDGE_USD, tbUSDC1205, optUSDC1205, stratEleven, hnat, hstab,
      cmpFor]
  refine ⟨hsel, stablecoin_whole_units 10 [optUSDC1205] .fastest stratEleven ?_ hsel⟩
  intro o ho
  rw [List.mem_singleton] at ho
  subst ho
  norm_num [optUSDC1205, tbUSDC1205]


/-- C9: strategy selection never records allocations on the shared input
options: in the pure embedding every bridge of either strategy built by
`calculateStrategies` is an allocated copy that agrees with some member of the
input list on all base fields while that member keeps all three allocation
fields unset, and the copies have all three allocation fields set. The
embedding constructs copies exactly where the source spreads
(`{ ...option, usedInputUSD, ... }`), so the shared list is never written. -/
theorem allocations_on_copies_only (T : ℚ) (opts : List BridgeOption)
    (hbal : ∀ o ∈ opts, 0 < o.from_.balance)
    (hset : ∀ o ∈ opts,
      o.usedInputUSD = none ∧ o.usedOutputUSD = none ∧ o.usedInputAmount = none) :
    ∀ s : DepositStrategy,
      (calculateStrategies T opts).1 = some s ∨ (calculateStrategies T opts).2 = some s →
      ∀ b ∈ s.bridges, ∃ o ∈ opts,
        b.from_ = o.from_ ∧
        b.estimatedOutputUSD = o.estimatedOutputUSD ∧
        b.estimatedTimeSeconds = o.estimatedTimeSeconds ∧
        b.estimatedFeesUSD = o.estimatedFeesUSD ∧
        b.efficiency = o.efficiency ∧
        o.usedInputUSD = none ∧ o.usedOutputUSD = none ∧ o.usedInputAmount = none ∧
        b.usedInputUSD.isSome = true ∧ b.usedOutputUSD.isSome = true ∧
        b.usedInputAmount.isSome = true := by
  have main : ∀ (strat : StratType) (s : DepositStrategy),
      selectOptimalBridges T opts strat = some s →
      ∀ b ∈ s.bridges, ∃ o ∈ opts,
        b.from_ = o.from_ ∧
        b.estimatedOutputUSD = o.estimatedOutputUSD ∧
        b.estimatedTimeSeconds = o.estimatedTimeSeconds ∧
        b.estimatedFeesUSD = o.estimatedFeesUSD ∧
        b.efficiency = o.efficiency ∧
        o.usedInputUSD = none ∧ o.usedOutputUSD = none ∧ o.usedInputAmount = none ∧
        b.usedInputUSD.isSome = true ∧ b.usedOutputUSD.isSome = true ∧
        b.usedInputAmount.isSome = true := by
    intro strat s hs
    obtain ⟨hbr, -, -⟩ := selectOptimalBridges_eq T opts strat s hs
    rw [hbr]
    refine selectLoop_invariant T
      (fun st : SelState => ∀ b ∈ st.selected, ∃ o ∈ opts,
        b.from_ = o.from_ ∧
        b.estimatedOutputUSD = o.estimatedOutputUSD ∧
        b.estimatedTimeSeconds = o.estimatedTimeSeconds ∧
        b.estimatedFeesUSD = o.estimatedFeesUSD ∧
        b.efficiency = o.efficiency ∧
        o.usedInputUSD = none ∧ o.usedOutputUSD = none ∧ o.usedInputAmount = none ∧
        b.usedInputUSD.isSome = true ∧ b.usedOutputUSD.isSome = true ∧
        b.usedInputAmount.isSome = true)
      (sortBy (cmpFor strat) opts) ?_ _ (by simp)
    intro st o ho hT1 hT2 hP
    have homem : o ∈ opts := (mem_sortBy _ _ _).mp ho
    rcases processOption_cases T st o hT1 (hbal o homem) with
      heq | ⟨raw, heq, hpos, hmin, hle, hnatEq, hdvd, hstab⟩
    · rw [heq]
      exact hP
    · rw [heq]
      intro b hb
      simp only [pushBridge, List.mem_append, List.mem_singleton] at hb
      rcases hb with hb | rfl
      · exact hP b hb
      · refine ⟨o, homem, rfl, rfl, rfl, rfl, rfl, (hset o homem).1, (hset o homem).2.1,
          (hset o homem).2.2, rfl, rfl, rfl⟩
  intro s hor
  unfold calculateStrategies at hor
  by_cases hemp : opts.isEmpty
  · rw [if_pos hemp] at hor
    rcases hor with h | h <;> exact absurd h (by simp)
  · rw [if_neg hemp] at hor
    rcases hor with h | h
    · exact main .fastest s h
    · exact main .cheapest s h

/-- Witness for C9: the $12.05 option has all allocation fields unset; the
returned copy has them set and agrees on the base fields. -/
theorem allocations_on_copies_only_witness :
    (calculateStrategies 10 [optUSDC1205]).1 = some stratEleven ∧
    (∀ b ∈ stratEleven.bridges, ∃ o ∈ [optUSDC1205],
      b.from_ = o.from_ ∧
      b.estimatedOutputUSD = o.estimatedOutputUSD ∧
      b.estimatedTimeSeconds = o.estimatedTimeSeconds ∧
      b.estimatedFeesUSD = o.estimatedFeesUSD ∧
      b.efficiency = o.efficiency ∧
      o.usedInputUSD = none ∧ o.usedOutputUSD = none ∧ o.usedInputAmount = none ∧
      b.usedInputUSD.isSome = true ∧ b.usedOutputUSD.isSome = true ∧
      b.usedInputAmount.isSome = true) := by
  have hnat : isNativeToken "0xA0b86991c6218b36c1d19D4a2e9Eb0cE3606eB48" "USDC" = false := by
    decide
  have hstab : isInlineStable "USDC" = true := by decide
  have hsel : (calculateStrategies 10 [optUSDC1205]).1 = some stratEleven := by
    norm_num [calculateStrategies, selectOptimalBridges, sortBy, insertLe, selectLoop,
      processOption, finishOption, COMPLETION_TOLERANCE, MIN_BRIDGE_USD,
      tbUSDC1205, optUSDC1205, stratEleven, hnat, hstab, cmpFor]
  refine ⟨hsel, allocations_on_copies_only 10 [optUSDC1205] ?_ ?_ stratEleven (Or.inl hsel)⟩
  · intro o ho
    rw [List.mem_singleton] at ho
    subst ho
    norm_num [optUSDC1205, tbUSDC1205]
  · intro o ho
    rw [List.mem_singleton] at ho
    subst ho
    exact ⟨rfl, rfl, rfl⟩


lemma availOf_mkAllocated (o : BridgeOption) (raw : ℤ) :
    availOf (mkAllocated o raw) = availOf o := rfl

/-- C10: for every inline-stablecoin leg of a returned strategy, the allocated
whole-unit count is exactly `min(ceil(target - output so far) + 1,
floor(available balance after gas reserve))` — at least one unit, and one more
than the needed output to cover fees — and an inline-stablecoin option whose
count would fall below 1 is skipped, leaving the loop state unchanged. -/
theorem stablecoin_allocation_formula (T : ℚ) (opts : List BridgeOption)
    (strat : StratType) (s : DepositStrategy)
    (hopts : ∀ o ∈ opts, 0 < o.from_.balance)
    (hs : selectOptimalBridges T opts strat = some s) :
    (∀ i (hi : i < s.bridges.length),
      isInlineStable ((s.bridges.get ⟨i, hi⟩).from_.tokenSymbol) = true →
      ((s.bridges.get ⟨i, hi⟩).usedInputAmount.getD 0 =
        min (⌈T - sumUsedOutput (s.bridges.take i)⌉ + 1) ⌊availOf (s.bridges.get ⟨i, hi⟩)⌋ *
          10 ^ (s.bridges.get ⟨i, hi⟩).from_.tokenDecimals ∧
      1 ≤ min (⌈T - sumUsedOutput (s.bridges.take i)⌉ + 1)
          ⌊availOf (s.bridges.get ⟨i, hi⟩)⌋)) ∧
    (∀ (st : SelState) (o : BridgeOption),
      isInlineStable o.from_.tokenSymbol = true →
      min (⌈T - st.totalOutput⌉ + 1) ⌊availOf o⌋ < 1 →
      processOption T st o = st) := by
  constructor
  · obtain ⟨hbr, -, -⟩ := selectOptimalBridges_eq T opts strat s hs
    have key :
        (fun st : SelState => st.totalOutput = sumUsedOutput st.selected ∧
          ∀ i (hi : i < st.selected.length),
            isInlineStable ((st.selected.get ⟨i, hi⟩).from_.tokenSymbol) = true →
            ((st.selected.get ⟨i, hi⟩).usedInputAmount.getD 0 =
              min (⌈T - sumUsedOutput (st.selected.take i)⌉ + 1)
                  ⌊availOf (st.selected.get ⟨i, hi⟩)⌋ *
                10 ^ (st.selected.get ⟨i, hi⟩).from_.tokenDecimals ∧
            1 ≤ min (⌈T - sumUsedOutput (st.selected.take i)⌉ + 1)
                ⌊availOf (st.selected.get ⟨i, hi⟩)⌋))
        (selectLoop T ⟨[], 0, 0, 0, 0⟩ (sortBy (cmpFor strat) opts)) := by
      refine selectLoop_invariant T
        (fun st : SelState => st.totalOutput = sumUsedOutput st.selected ∧
          ∀ i (hi : i < st.selected.length),
            isInlineStable ((st.selected.get ⟨i, hi⟩).from_.tokenSymbol) = true →
            ((st.selected.get ⟨i, hi⟩).usedInputAmount.getD 0 =
              min (⌈T - sumUsedOutput (st.selected.take i)⌉ + 1)
                  ⌊availOf (st.selected.get ⟨i, hi⟩)⌋ *
                10 ^ (st.selected.get ⟨i, hi⟩).from_.tokenDecimals ∧
            1 ≤ min (⌈T - sumUsedOutput (st.selected.take i)⌉ + 1)
                ⌊availOf (st.selected.get ⟨i, hi⟩)⌋))
        (sortBy (cmpFor strat) opts) ?_ _ ?_
      · intro st o ho hT1 hT2 hP
        rcases processOption_cases T st o hT1 (hopts o ((mem_sortBy _ _ _).mp ho)) with
          heq | ⟨raw, heq, hpos, hmin, hle, hnatEq, hdvd, hstab⟩
        · rw [heq]
          exact hP
        · rw [heq]
          obtain ⟨hsum, hidx⟩ := hP
          constructor
          · simp only [pushBridge, sumUsedOutput, List.map_append, List.sum_append,
              List.map_cons, List.map_nil, List.sum_cons, List.sum_nil, mkAllocated]
            rw [← sumUsedOutput, ← hsum]
            simp
          · intro i hi hstable
            simp only [pushBridge, List.length_append, List.length_cons,
              List.length_nil] at hi
            rcases Nat.lt_succ_iff_lt_or_eq.mp hi with hlt | heq2
            · have hget : (st.selected ++ [mkAllocated o raw]).get
                  ⟨i, by simp only [List.length_append, List.length_cons, List.length_nil]; omega⟩ =
                  st.selected.get ⟨i, hlt⟩ := List.get_append i hlt
              simp only [pushBridge] at hstable ⊢
              rw [hget] at hstable ⊢
              rw [List.take_append_of_le_length (le_of_lt hlt)]
              exact hidx i hlt hstable
            · subst heq2
              have hget : (st.selected ++ [mkAllocated o raw]).get
                  ⟨st.selected.length,
                    by simp only [List.length_append, List.length_cons, List.length_nil]; omega⟩ =
                  mkAllocated o raw := by
                rw [List.get_eq_getElem]
                exact List.getElem_concat_length _ _ _ rfl _
              simp only [pushBridge] at hstable ⊢
              rw [hget] at hstable ⊢
              rw [List.take_left, ← hsum, availOf_mkAllocated]
              simp only [mkAllocated, Option.getD_some]
              exact hstab hstable
      · refine ⟨by simp [sumUsedOutput], ?_⟩
        intro i hi
        exact absurd hi (by simp)
    intro i hi hstable
    have hi2 : i < (selectLoop T ⟨[], 0, 0, 0, 0⟩
        (sortBy (cmpFor strat) opts)).selected.length := by
      rw [← hbr]
      exact hi
    have hg : s.bridges.get ⟨i, hi⟩ =
        (selectLoop T ⟨[], 0, 0, 0, 0⟩ (sortBy (cmpFor strat) opts)).selected.get ⟨i, hi2⟩ :=
      List.get_of_eq hbr ⟨i, hi⟩
    have ht : s.bridges.take i =
        (selectLoop T ⟨[], 0, 0, 0, 0⟩ (sortBy (cmpFor strat) opts)).selected.take i := by
      rw [hbr]
    rw [hg] at hstable ⊢
    rw [ht]
    exact key.2 i hi2 hstable
  · intro st o hstable hlt
    simp only [processOption]
    rw [show (if isNativeToken o.from_.tokenAddress o.from_.tokenSymbol = true then
        max 0 (o.from_.balance - getGasReserve o.from_.chainId) else o.from_.balance) = availOf o
      from rfl]
    split_ifs <;> rfl

/-- Witness for C10: the 11-unit allocation is `min(11, 12) * 10^6`, and an
all-dust stablecoin option (balance 0.50, so floored available balance 0) is
skipped without touching the loop state. -/
theorem stablecoin_allocation_formula_witness :
    selectOptimalBridges 10 [optUSDC1205] .fastest = some stratEleven ∧
    processOption 10 ⟨[], 0, 0, 0, 0⟩ optUSDC050 = ⟨[], 0, 0, 0, 0⟩ := by
  have hnat : isNativeToken "0xA0b86991c6218b36c1d19D4a2e9Eb0cE3606eB48" "USDC" = false := by
    decide
  have hstab : isInlineStable "USDC" = true := by decide
  have hsel : selectOptimalBridges 10 [optUSDC1205] .fastest = some stratEleven := by
    norm_num [selectOptimalBridges, sortBy, insertLe, selectLoop, processOption, finishOption,
      COMPLETION_TOLERANCE, MIN_BRIDGE_USD, tbUSDC1205, optUSDC1205, stratEleven, hnat, hstab,
      cmpFor]
  refine ⟨hsel, ?_⟩
  refine (stablecoin_allocation_formula 10 [optUSDC1205] .fastest stratEleven ?_ hsel).2
    ⟨[], 0, 0, 0, 0⟩ optUSDC050 (by decide) ?_
  · intro o ho
    rw [List.mem_singleton] at ho
    subst ho
    norm_num [optUSDC1205, tbUSDC1205]
  · norm_num [availOf, optUSDC050, tbUSDC050, hnat]


/-- C6 counterexample: two strategies with identical aggregate time, fees and
output but different underlying bridges dominate each other mutually; they are
not "identical" (different bridges), and the comparator then presents BOTH
options — so strategy A (cheapest) being faster-or-equal, cheaper-or-equal and
within 95% output of B (fastest) does not stop B from being presented as a
separate option, and no single merged route is shown. -/
theorem dominance_mutual_counterexample :
    dominates stratCheapOpt stratFastEth = true ∧
    dominates stratFastEth stratCheapOpt = true ∧
    strategiesAreIdentical stratFastEth stratCheapOpt = false ∧
    strategyDisplayDecision stratFastEth stratCheapOpt =
      { showFastest := true, showCheapest := true, singleBestStrategy := none } := by
  have hsame : areSameBridges stratFastEth stratCheapOpt = false := by decide
  have hid : strategiesAreIdentical stratFastEth stratCheapOpt = false := by
    simp [strategiesAreIdentical, hsame]
  have hcd : dominates stratCheapOpt stratFastEth = true := by
    norm_num [dominates, stratCheapOpt, stratFastEth]
  have hfd : dominates stratFastEth stratCheapOpt = true := by
    norm_num [dominates, stratCheapOpt, stratFastEth]
  have hcf : ¬ (stratCheapOpt.totalTimeSeconds < stratFastEth.totalTimeSeconds) := by
    norm_num [stratCheapOpt, stratFastEth]
  have hfc : ¬ (stratFastEth.totalTimeSeconds < stratCheapOpt.totalTimeSeconds) := by
    norm_num [stratCheapOpt, stratFastEth]
  refine ⟨hcd, hfd, hid, ?_⟩
  simp only [strategyDisplayDecision, hid, Bool.false_eq_true, if_false]
  rw [if_neg (by simp [hcd, hfd, hcf]), if_neg (by simp [hcd, hfd, hfc])]

/-- C6 amended: the comparator collapses identical strategies into a single
best route, and suppresses a strategy only when the domination is one-sided:
if A dominates B (faster-or-equal, cheaper-or-equal, ≥95% of B's output) and B
does not dominate A, only A is presented. When A and B dominate each other but
are not identical, both are presented (see the counterexample). -/
theorem dominance_presentation (f c : DepositStrategy) :
    (strategiesAreIdentical f c = true →
      strategyDisplayDecision f c =
        { showFastest := true, showCheapest := false, singleBestStrategy := some .fastest }) ∧
    (strategiesAreIdentical f c = false → dominates c f = true → dominates f c = false →
      strategyDisplayDecision f c =
        { showFastest := false, showCheapest := true, singleBestStrategy := some .cheapest }) ∧
    (strategiesAreIdentical f c = false → dominates f c = true → dominates c f = false →
      strategyDisplayDecision f c =
        { showFastest := true, showCheapest := false, singleBestStrategy := some .fastest }) := by
  refine ⟨?_, ?_, ?_⟩
  · intro hid
    simp [strategyDisplayDecision, hid]
  · intro hid hcd hfd
    simp only [strategyDisplayDecision, hid, Bool.false_eq_true, if_false]
    rw [if_pos (by simp [hcd, hfd])]
  · intro hid hfd hcd
    have hft : f.totalTimeSeconds ≤ c.totalTimeSeconds := by
      have h := hfd
      simp only [dominates, Bool.and_eq_true, decide_eq_true_eq] at h
      exact h.1.1
    simp only [strategyDisplayDecision, hid, Bool.false_eq_true, if_false]
    rw [if_neg (by simp [hcd, not_lt.mpr hft]), if_pos (by simp [hfd, hcd])]

/-- Witness for C6 amended: a strictly faster, strictly cheaper
cheapest-labelled strategy one-sidedly dominates; only it is presented. -/
theorem dominance_presentation_witness :
    strategiesAreIdentical stratFastSlow stratCheapBetter = false ∧
    dominates stratCheapBetter stratFastSlow = true ∧
    dominates stratFastSlow stratCheapBetter = false ∧
    strategyDisplayDecision stratFastSlow stratCheapBetter =
      { showFastest := false, showCheapest := true, singleBestStrategy := some .cheapest } := by
  have hsame : areSameBridges stratFastSlow stratCheapBetter = false := by decide
  have hid : strategiesAreIdentical stratFastSlow stratCheapBetter = false := by
    simp [strategiesAreIdentical, hsame]
  have hcd : dominates stratCheapBetter stratFastSlow = true := by
    norm_num [dominates, stratCheapBetter, stratFastSlow]
  have hfd : dominates stratFastSlow stratCheapBetter = false := by
    norm_num [dominates, stratCheapBetter, stratFastSlow]
  exact ⟨hid, hcd, hfd, (dominance_presentation stratFastSlow stratCheapBetter).2.1 hid hcd hfd⟩

end HyprBridge
